import Mathlib

/-!
Shallow embedding of `SimpleNeuralNetwork.py` (class `SimpleNeuralNetwork`).

Numbers are modelled by `ℝ` (numpy float values) and `ℤ` (numpy int values).
A numpy `ndarray` is modelled by `NpArr`: genuine numeric 1-D and 2-D arrays
carry their data (`i1`, `f1`, `i2`, `f2`); `obj` models an array of
non-numeric dtype with a given shape, and `numOther` a numeric array of some
other number of dimensions.  2-D numpy arrays are rectangular, so a 2-D
array is a list of rows of equal length; `cols` is `shape[1]`.

Python dynamic typing at the setters is modelled by `PyObj` (an argument
that is an ndarray or not) and `PyList` (an argument that is a list or not).
Raised exceptions are modelled by `Except PyErr`; `PyErr` distinguishes the
`TypeError`, `ValueError` and `IndexError` classes (message strings are kept
short, the Python messages interpolate values).
-/

namespace SimpleNN

inductive DType where
  | dint : DType
  | dfloat : DType
  | dother : DType
deriving DecidableEq

inductive NpArr where
  | i1 (v : List ℤ) : NpArr
  | f1 (v : List ℝ) : NpArr
  | i2 (m : List (List ℤ)) : NpArr
  | f2 (m : List (List ℝ)) : NpArr
  | obj (shape : List ℕ) : NpArr
  | numOther (nd : ℕ) (isInt : Bool) : NpArr

/-- `shape[1]` of a 2-D array: number of columns (2-D numpy arrays are
rectangular, every row has this length). -/
def cols (m : List (List α)) : ℕ := (m.headD []).length

/-- The numpy `shape` tuple.  For `numOther` only the number of axes is
tracked. -/
def NpArr.shape : NpArr → List ℕ
  | .i1 v => [v.length]
  | .f1 v => [v.length]
  | .i2 m => [m.length, cols m]
  | .f2 m => [m.length, cols m]
  | .obj s => s
  | .numOther nd _ => List.replicate nd 0

/-- numpy `ndim` = length of the shape tuple. -/
def NpArr.ndim (a : NpArr) : ℕ := a.shape.length

def NpArr.dtype : NpArr → DType
  | .i1 _ => .dint
  | .i2 _ => .dint
  | .f1 _ => .dfloat
  | .f2 _ => .dfloat
  | .obj _ => .dother
  | .numOther _ b => if b then .dint else .dfloat

/-- Data of a 1-D int array.  `i1` is the only constructor that both has
1-D int dtype and carries data; the uses of this helper are guarded by
`ndim = 1` and `dtype = dint` checks. -/
def NpArr.ints1 : NpArr → List ℤ
  | .i1 v => v
  | _ => []

/-- A Python value passed where an ndarray is expected. -/
inductive PyObj where
  | arr (a : NpArr) : PyObj
  | nonArr : PyObj

/-- A Python value passed where a list is expected. -/
inductive PyList where
  | lst (l : List PyObj) : PyList
  | notList : PyList

inductive PyErr where
  | typeError (msg : String) : PyErr
  | valueError (msg : String) : PyErr
  | indexError (msg : String) : PyErr
deriving DecidableEq

/-- `SimpleNeuralNetwork.sigmoid_function`: `1. / (1. + np.exp(-num))`. -/
noncomputable def sigmoid (x : ℝ) : ℝ := 1 / (1 + Real.exp (-x))

/-- `sigmoid_function` applied to a 1-D array (numpy broadcasts
elementwise). -/
noncomputable def sigmoidVec (v : List ℝ) : List ℝ := v.map sigmoid

/-- Inner product of two lists of reals. -/
noncomputable def dotList (u v : List ℝ) : ℝ := (List.zipWith (· * ·) u v).sum

/-- Result of `np.dot`: a scalar (1-D weight) or a vector (2-D weight). -/
inductive DotRes where
  | scal (x : ℝ) : DotRes
  | vec (v : List ℝ) : DotRes

/-- `np.dot` of a 2-D array with a 1-D array.  numpy requires
`shape[1] == len(v)`; since 2-D arrays are rectangular this is the
condition that every row has length `len(v)`. -/
noncomputable def matVec (m : List (List ℝ)) (v : List ℝ) : Except PyErr DotRes :=
  if m.all fun r => r.length = v.length then
    .ok (.vec (m.map fun r => dotList r v))
  else
    .error (.valueError "shapes not aligned")

/-- `np.dot(w, v)` for a weight entry `w` and a 1-D float vector `v`.
A 1-D weight gives the scalar inner product, a 2-D weight the
matrix-vector product.  Only 1-D/2-D numeric arrays reach `np.dot`
through the validated setters, so the remaining constructors are not
modelled further. -/
noncomputable def npdot (w : NpArr) (v : List ℝ) : Except PyErr DotRes :=
  match w with
  | .i1 u =>
      if u.length = v.length then .ok (.scal (dotList (u.map Int.cast) v))
      else .error (.valueError "shapes not aligned")
  | .f1 u =>
      if u.length = v.length then .ok (.scal (dotList u v))
      else .error (.valueError "shapes not aligned")
  | .i2 m => matVec (m.map fun r => r.map Int.cast) v
  | .f2 m => matVec m v
  | _ => .error (.valueError "dot not modelled for this operand")

/-- numpy `+` of a dot result with a 1-D float vector, with numpy's 1-D
broadcasting rules: a scalar broadcasts over the vector, and a length-1
vector broadcasts over the other operand. -/
noncomputable def addB (d : DotRes) (bv : List ℝ) : Except PyErr (List ℝ) :=
  match d with
  | .scal x => .ok (bv.map fun y => x + y)
  | .vec u =>
      if u.length = bv.length then .ok (List.zipWith (· + ·) u bv)
      else if u.length = 1 then .ok (bv.map fun y => u.headD 0 + y)
      else if bv.length = 1 then .ok (u.map fun x => x + bv.headD 0)
      else .error (.valueError "operands could not be broadcast together")

/-- numpy `+` where the right operand is a bias entry.  The biases setter
only admits 1-D numeric arrays, so only those are modelled. -/
noncomputable def npadd (d : DotRes) (b : NpArr) : Except PyErr (List ℝ) :=
  match b with
  | .f1 bv => addB d bv
  | .i1 bv => addB d (bv.map Int.cast)
  | _ => .error (.valueError "add not modelled for this operand")

/-- One transition `sigmoid(np.dot(w, v) + b)` (the body of `update`). -/
noncomputable def layerStep (w b : NpArr) (v : List ℝ) : Except PyErr (List ℝ) :=
  match npdot w v with
  | .error e => .error e
  | .ok d =>
      match npadd d b with
      | .error e => .error e
      | .ok s => .ok (sigmoidVec s)

/-- The state of a `SimpleNeuralNetwork` object.  `layer_sizes` has been
validated to be a 1-D int array and is stored as its entries; `weights`
and `biases` have been validated to be lists of ndarrays. -/
structure Network where
  first_layer : List ℝ
  current_layer : List ℝ
  layer_sizes : List ℤ
  weights : List NpArr
  biases : List NpArr
  layer_counter : ℕ

/-- The `layer_sizes` setter.  Checks, in the order of the source: the
value is an ndarray, is one-dimensional, has int dtype, all entries are
positive, and `len(self.current_layer) == new_layer_sizes[self._layer_counter]`
(the last indexing raises `IndexError` when out of range). -/
def setLayerSizes (cur : List ℝ) (counter : ℕ) (v : PyObj) : Except PyErr (List ℤ) :=
  match v with
  | .nonArr => .error (.typeError "The layer sizes have to be a numpy array.")
  | .arr a =>
      if a.ndim ≠ 1 then
        .error (.valueError "The sizes of the layers has to be a one-dimensional array.")
      else if a.dtype ≠ .dint then
        .error (.typeError "Size of the layers have to of type int.")
      else if ¬ (a.ints1.all fun s => decide (0 < s)) then
        .error (.valueError "The sizes of the layers have to be positive.")
      else
        match a.ints1[counter]? with
        | none => .error (.indexError "index out of bounds")
        | some s =>
            if (cur.length : ℤ) ≠ s then
              .error (.valueError "The size of the current layer has to coincide with the corresponding value in the layer_sizes array.")
            else .ok a.ints1

/-- Element loop of the `weights` setter: each entry must be an ndarray,
one- or two-dimensional, of float or int dtype. -/
def weightEntries : List PyObj → Except PyErr (List NpArr)
  | [] => .ok []
  | .nonArr :: _ => .error (.typeError "The entries of the weight list have to be numpy arrays.")
  | .arr a :: rest =>
      if ¬ (a.ndim = 2 ∨ a.ndim = 1) then
        .error (.valueError "All entries of weight list have to be one- or two-dimensional.")
      else if ¬ (a.dtype = .dfloat ∨ a.dtype = .dint) then
        .error (.typeError "The entries of the weights have to be real numbers.")
      else
        match weightEntries rest with
        | .error e => .error e
        | .ok ws => .ok (a :: ws)

/-- The `weights` setter. -/
def setWeights (v : PyList) : Except PyErr (List NpArr) :=
  match v with
  | .notList => .error (.typeError "The weights have to be a list.")
  | .lst l => weightEntries l

/-- Element loop of the `biases` setter: each entry must be an ndarray,
one-dimensional, of float or int dtype. -/
def biasEntries : List PyObj → Except PyErr (List NpArr)
  | [] => .ok []
  | .nonArr :: _ => .error (.typeError "All entries of the bias list have to be numpy arrays.")
  | .arr a :: rest =>
      if a.ndim ≠ 1 then
        .error (.valueError "All entries of biases have to be one-dimensional.")
      else if ¬ (a.dtype = .dfloat ∨ a.dtype = .dint) then
        .error (.typeError "The entries of the biases have to be real numbers.")
      else
        match biasEntries rest with
        | .error e => .error e
        | .ok bs => .ok (a :: bs)

/-- The `biases` setter. -/
def setBiases (v : PyList) : Except PyErr (List NpArr) :=
  match v with
  | .notList => .error (.typeError "All entries of the biases have to be numpy arrays.")
  | .lst l => biasEntries l

/-- Observable steps of the constructor, used to express when the input
vector has already been passed through the sigmoid. -/
inductive InitEvent where
  | sigmoidApplied : InitEvent
  | layerSizesSet : InitEvent
  | weightsSet : InitEvent
  | biasesSet : InitEvent
deriving DecidableEq

/-- `__init__`: applies the sigmoid to the input vector (lines 20-21 of
the source, producing `first_layer` and `current_layer`), then runs the
`layer_sizes`, `weights` and `biases` setters in that order.  The first
component records which steps completed before an error was raised; the
sigmoid application always precedes the validation of `layer_sizes`. -/
noncomputable def init (first : List ℝ) (lsIn : PyObj) (wIn bIn : PyList) :
    List InitEvent × Except PyErr Network :=
  let fl := sigmoidVec first
  let cur := sigmoidVec first
  match setLayerSizes cur 0 lsIn with
  | .error e => ([.sigmoidApplied], .error e)
  | .ok ls =>
      match setWeights wIn with
      | .error e => ([.sigmoidApplied, .layerSizesSet], .error e)
      | .ok ws =>
          match setBiases bIn with
          | .error e => ([.sigmoidApplied, .layerSizesSet, .weightsSet], .error e)
          | .ok bs =>
              ([.sigmoidApplied, .layerSizesSet, .weightsSet, .biasesSet],
               .ok ⟨fl, cur, ls, ws, bs, 0⟩)

/-- `update`: `sigmoid(np.dot(weights[counter], current) + biases[counter])`,
then increments the layer counter.  Evaluation order follows Python:
`weights[counter]` is indexed, the dot product is formed, `biases[counter]`
is indexed, the sum is formed.  On an exception no attribute is assigned. -/
noncomputable def update (net : Network) : Except PyErr (List ℝ) × Network :=
  match net.weights[net.layer_counter]? with
  | none => (.error (.indexError "list index out of range"), net)
  | some w =>
      match npdot w net.current_layer with
      | .error e => (.error e, net)
      | .ok d =>
          match net.biases[net.layer_counter]? with
          | none => (.error (.indexError "list index out of range"), net)
          | some b =>
              match npadd d b with
              | .error e => (.error e, net)
              | .ok s =>
                  (.ok (sigmoidVec s),
                   { net with current_layer := sigmoidVec s,
                              layer_counter := net.layer_counter + 1 })

/-- The comprehension `[self.update() for _ in self.layer_sizes[:-1]]`:
`k` sequential updates, threading the mutated state; an exception aborts
the comprehension but keeps the mutations already made. -/
noncomputable def runUpdates : ℕ → Network → Except PyErr (List (List ℝ)) × Network
  | 0, net => (.ok [], net)
  | k + 1, net =>
      match update net with
      | (.error e, net1) => (.error e, net1)
      | (.ok u, net1) =>
          match runUpdates k net1 with
          | (.ok outs, net2) => (.ok (u :: outs), net2)
          | (.error e, net2) => (.error e, net2)

/-- The weight loop of `check_shapes`, with `n` the running index.  For a
2-D entry the shape must be `(layer_sizes[n+1], layer_sizes[n])`, for a
1-D entry `shape[0]` must equal `layer_sizes[n]`; other dimensionalities
are skipped.  Indexing `layer_sizes` out of range raises `IndexError`. -/
def checkW (ls : List ℤ) : ℕ → List NpArr → Except PyErr Unit
  | _, [] => .ok ()
  | n, w :: ws =>
      if w.shape.length = 2 then
        match ls[n + 1]? with
        | none => .error (.indexError "index out of bounds")
        | some sOut =>
            if (w.shape.headD 0 : ℤ) ≠ sOut then
              .error (.valueError "Shapes of the weight matrix does not coincide with the layer sizes.")
            else
              match ls[n]? with
              | none => .error (.indexError "index out of bounds")
              | some sIn =>
                  if (w.shape.getD 1 0 : ℤ) ≠ sIn then
                    .error (.valueError "Shapes of the weight matrix does not coincide with the layer sizes.")
                  else checkW ls (n + 1) ws
      else if w.shape.length = 1 then
        match ls[n]? with
        | none => .error (.indexError "index out of bounds")
        | some sIn =>
            if (w.shape.headD 0 : ℤ) ≠ sIn then
              .error (.valueError "Shapes of the weight matrix does not coincide with the layer sizes.")
            else checkW ls (n + 1) ws
      else checkW ls (n + 1) ws

/-- The bias loop of `check_shapes`: `shape[0]` of the `n`-th bias must
equal `layer_sizes[n+1]`.  `shape[0]` of a 0-d array and out-of-range
indexing of `layer_sizes` raise `IndexError`. -/
def checkB (ls : List ℤ) : ℕ → List NpArr → Except PyErr Unit
  | _, [] => .ok ()
  | n, b :: bs =>
      match b.shape.head? with
      | none => .error (.indexError "tuple index out of range")
      | some s0 =>
          match ls[n + 1]? with
          | none => .error (.indexError "index out of bounds")
          | some sOut =>
              if (s0 : ℤ) ≠ sOut then
                .error (.valueError "Shape of the bias vector does not coincide with the layer size.")
              else checkB ls (n + 1) bs

/-- `check_shapes`: the weight loop, then the bias loop. -/
def checkShapes (net : Network) : Except PyErr Unit :=
  match checkW net.layer_sizes 0 net.weights with
  | .error e => .error e
  | .ok _ => checkB net.layer_sizes 0 net.biases

/-- `run`: `check_shapes`, then reset to the first layer when the layer
counter is non-zero, then `[self.current_layer] + [self.update() for _ in
self.layer_sizes[:-1]]`. -/
noncomputable def run (net : Network) : Except PyErr (List (List ℝ)) × Network :=
  match checkShapes net with
  | .error e => (.error e, net)
  | .ok _ =>
      let net1 :=
        if net.layer_counter = 0 then net
        else { net with layer_counter := 0, current_layer := net.first_layer }
      match runUpdates (net1.layer_sizes.length - 1) net1 with
      | (.ok outs, net2) => (.ok (net1.current_layer :: outs), net2)
      | (.error e, net2) => (.error e, net2)

/-- A weight entry aligned with a transition from a layer of size `sIn`
to a layer of size `sOut`: a rectangular 2-D array of shape
`(sOut, sIn)`, or a 1-D array of length `sIn` (the scalar-product case
`check_shapes` admits). -/
def alignedW (w : NpArr) (sIn sOut : ℤ) : Bool :=
  match w with
  | .i2 m => (m.all fun r => r.length = cols m) && ((m.length : ℤ) == sOut) && ((cols m : ℤ) == sIn)
  | .f2 m => (m.all fun r => r.length = cols m) && ((m.length : ℤ) == sOut) && ((cols m : ℤ) == sIn)
  | .i1 v => (v.length : ℤ) == sIn
  | .f1 v => (v.length : ℤ) == sIn
  | _ => false

/-- A bias entry aligned with a transition into a layer of size `sOut`:
a 1-D numeric array of that length. -/
def alignedB (b : NpArr) (sOut : ℤ) : Bool :=
  match b with
  | .i1 v => (v.length : ℤ) == sOut
  | .f1 v => (v.length : ℤ) == sOut
  | _ => false

/-- The weight/bias pairs align with the successive layer sizes: starting
from a layer of size `sIn`, the `n`-th pair is aligned with the
transition to the `n`-th remaining size.  Sizes may remain after the
pairs are exhausted (a prefix alignment). -/
def alignedChain : List (NpArr × NpArr) → ℤ → List ℤ → Bool
  | [], _, _ => true
  | (w, b) :: rest, sIn, szs =>
      match szs with
      | [] => false
      | sOut :: szs' => alignedW w sIn sOut && alignedB b sOut && alignedChain rest sOut szs'

/-- The stored first layer and the weight/bias entries align with the
layer sizes: the first layer has the first size and the pairs form an
aligned chain along the remaining sizes. -/
def alignedNet (net : Network) : Bool :=
  match net.layer_sizes with
  | [] => false
  | s0 :: rest =>
      ((net.first_layer.length : ℤ) == s0) &&
      alignedChain (net.weights.zip net.biases) s0 rest

/-- Valid, mutually aligned shapes: as many weight and bias entries as
layer transitions, and every entry aligned with its transition. -/
def validShapes (net : Network) : Bool :=
  (net.biases.length == net.weights.length) &&
  (net.weights.length + 1 == net.layer_sizes.length) &&
  alignedNet net

/-- The successful transcript of the update loop: each output layer is
obtained from the previous one by `layerStep` with the corresponding
weight/bias pair. -/
inductive Steps : List (NpArr × NpArr) → List ℝ → List (List ℝ) → Prop where
  | nil (v : List ℝ) : Steps [] v []
  | cons {w b : NpArr} {v u : List ℝ} {rest : List (NpArr × NpArr)} {outs : List (List ℝ)}
      (h : layerStep w b v = .ok u) (hrest : Steps rest u outs) :
      Steps ((w, b) :: rest) v (u :: outs)

/-- The condition `check_shapes` tests on the `n`-th weight entry, as the
claim states it: a 2-D entry has shape `(layer_sizes[n+1], layer_sizes[n])`,
a 1-D entry has `shape[0] == layer_sizes[n]`, anything else is not
checked. -/
def wMatch (ls : List ℤ) (n : ℕ) (w : NpArr) : Bool :=
  if w.shape.length = 2 then
    ((w.shape.headD 0 : ℤ) == ls.getD (n + 1) 0) && ((w.shape.getD 1 0 : ℤ) == ls.getD n 0)
  else if w.shape.length = 1 then
    (w.shape.headD 0 : ℤ) == ls.getD n 0
  else true

/-- The condition `check_shapes` tests on the `n`-th bias entry:
`shape[0] == layer_sizes[n+1]`. -/
def bMatch (ls : List ℤ) (n : ℕ) (b : NpArr) : Bool :=
  (b.shape.headD 0 : ℤ) == ls.getD (n + 1) 0

def wMatchAll (ls : List ℤ) : ℕ → List NpArr → Bool
  | _, [] => true
  | n, w :: ws => wMatch ls n w && wMatchAll ls (n + 1) ws

def bMatchAll (ls : List ℤ) : ℕ → List NpArr → Bool
  | _, [] => true
  | n, b :: bs => bMatch ls n b && bMatchAll ls (n + 1) bs

/-- Every weight and bias entry passes its `check_shapes` comparison. -/
def entriesMatch (net : Network) : Bool :=
  wMatchAll net.layer_sizes 0 net.weights && bMatchAll net.layer_sizes 0 net.biases

/-- An entry the `weights` setter accepts: an ndarray, 1- or 2-dimensional,
of numeric dtype. -/
def wTyped (x : PyObj) : Bool :=
  match x with
  | .arr a => ((a.ndim == 2) || (a.ndim == 1)) && ((a.dtype == .dfloat) || (a.dtype == .dint))
  | .nonArr => false

/-- An entry the `biases` setter accepts: an ndarray, 1-dimensional, of
numeric dtype. -/
def bTyped (x : PyObj) : Bool :=
  match x with
  | .arr a => (a.ndim == 1) && ((a.dtype == .dfloat) || (a.dtype == .dint))
  | .nonArr => false

/-- An invalid `layer_sizes` argument in the sense of the claim: not an
ndarray, not one-dimensional, not of int dtype, or containing a
non-positive entry. -/
def lsInvalid (v : PyObj) : Bool :=
  match v with
  | .nonArr => true
  | .arr a =>
      (a.ndim != 1) || (a.dtype != .dint) ||
      (match a with
       | .i1 l => l.any fun s => decide (s ≤ 0)
       | _ => false)

/-- The raised exception is a `TypeError` or a `ValueError`. -/
def isTVErr : PyErr → Bool
  | .typeError _ => true
  | .valueError _ => true
  | .indexError _ => false

/-- A concrete valid two-layer network (sizes `[1, 1]`), as produced by
the constructor from the input vector `[0]`. -/
noncomputable def exNet : Network :=
  ⟨sigmoidVec [0], sigmoidVec [0], [1, 1], [.f2 [[0]]], [.f1 [0]], 0⟩

/-- A concrete network whose weights/biases lists have one entry while
`layer_sizes` declares three layers (two transitions). -/
noncomputable def shortNet : Network :=
  ⟨[0], [0], [1, 1, 1], [.f2 [[0]]], [.f1 [0]], 0⟩

/-- A concrete network whose single 1-D weight has length 2 while
`layer_sizes[0] = 1`: well-typed entries whose shapes disagree with the
layer sizes. -/
noncomputable def mismatchNet : Network :=
  ⟨[0], [0], [1, 1], [.f1 [0, 0]], [.f1 [0]], 0⟩

theorem sigmoidVec_length (v : List ℝ) : (sigmoidVec v).length = v.length :=
  List.length_map v sigmoid

/-- An aligned transition step succeeds and yields a layer of the target
size. -/
theorem layerStep_ok {w b : NpArr} {sIn sOut : ℤ} {v : List ℝ}
    (hw : alignedW w sIn sOut = true) (hb : alignedB b sOut = true)
    (hv : (v.length : ℤ) = sIn) :
    ∃ u, layerStep w b v = .ok u ∧ (u.length : ℤ) = sOut := by
  have hbv : ∃ bv : List ℝ, (npadd · b) = (addB · bv) ∧ (bv.length : ℤ) = sOut := by
    cases b with
    | i1 bv =>
        refine ⟨bv.map Int.cast, rfl, ?_⟩
        simpa [alignedB] using hb
    | f1 bv =>
        refine ⟨bv, rfl, ?_⟩
        simpa [alignedB] using hb
    | i2 m => simp [alignedB] at hb
    | f2 m => simp [alignedB] at hb
    | obj s => simp [alignedB] at hb
    | numOther nd isInt => simp [alignedB] at hb
  obtain ⟨bv, hnp, hblen⟩ := hbv
  have haddScal : ∀ x : ℝ, ∃ s : List ℝ, addB (.scal x) bv = .ok s ∧ (s.length : ℤ) = sOut := by
    intro x
    exact ⟨bv.map fun y => x + y, rfl, by simpa using hblen⟩
  have haddVec : ∀ u : List ℝ, (u.length : ℤ) = sOut →
      ∃ s : List ℝ, addB (.vec u) bv = .ok s ∧ (s.length : ℤ) = sOut := by
    intro u hu
    have hlen : u.length = bv.length := by
      have := hu.trans hblen.symm
      exact_mod_cast this
    refine ⟨List.zipWith (· + ·) u bv, by simp [addB, hlen], ?_⟩
    simp [List.length_zipWith, hlen, hblen]
  cases w with
  | i1 u =>
      have hlen : u.length = v.length := by
        have : (u.length : ℤ) = sIn := by simpa [alignedW] using hw
        have := this.trans hv.symm
        exact_mod_cast this
      obtain ⟨s, hs, hslen⟩ := haddScal (dotList (u.map (Int.cast : ℤ → ℝ)) v)
      have hadd : npadd (.scal (dotList (u.map (Int.cast : ℤ → ℝ)) v)) b = .ok s := by
        rw [congrFun hnp]; exact hs
      refine ⟨sigmoidVec s, ?_, by simpa [sigmoidVec_length] using hslen⟩
      have hdot : npdot (.i1 u) v = .ok (.scal (dotList (u.map (Int.cast : ℤ → ℝ)) v)) := by
        simp only [npdot]; rw [if_pos hlen]
      simp only [layerStep, hdot, hadd]
  | f1 u =>
      have hlen : u.length = v.length := by
        have : (u.length : ℤ) = sIn := by simpa [alignedW] using hw
        have := this.trans hv.symm
        exact_mod_cast this
      obtain ⟨s, hs, hslen⟩ := haddScal (dotList u v)
      have hadd : npadd (.scal (dotList u v)) b = .ok s := by
        rw [congrFun hnp]; exact hs
      refine ⟨sigmoidVec s, ?_, by simpa [sigmoidVec_length] using hslen⟩
      have hdot : npdot (.f1 u) v = .ok (.scal (dotList u v)) := by
        simp only [npdot]; rw [if_pos hlen]
      simp only [layerStep, hdot, hadd]
  | i2 m =>
      simp only [alignedW, Bool.and_eq_true, beq_iff_eq, List.all_eq_true] at hw
      obtain ⟨⟨hrect, hrows⟩, hcols⟩ := hw
      have hcv : cols m = v.length := by
        have := hcols.trans hv.symm
        exact_mod_cast this
      have hall : ∀ r ∈ m.map fun r => r.map (Int.cast : ℤ → ℝ), r.length = v.length := by
        intro r hr
        obtain ⟨r0, hr0, rfl⟩ := List.mem_map.mp hr
        have := hrect r0 hr0
        simp only [decide_eq_true_eq] at this
        simp [this, hcv]
      obtain ⟨s, hs, hslen⟩ := haddVec ((m.map fun r => r.map (Int.cast : ℤ → ℝ)).map fun r => dotList r v)
        (by simpa using hrows)
      have hadd : npadd (.vec ((m.map fun r => r.map (Int.cast : ℤ → ℝ)).map fun r => dotList r v)) b = .ok s := by
        rw [congrFun hnp]; exact hs
      refine ⟨sigmoidVec s, ?_, by simpa [sigmoidVec_length] using hslen⟩
      have hmv : matVec (m.map fun r => r.map (Int.cast : ℤ → ℝ)) v =
          .ok (.vec ((m.map fun r => r.map (Int.cast : ℤ → ℝ)).map fun r => dotList r v)) := by
        simp only [matVec]
        rw [if_pos (by simpa [List.all_eq_true] using hall)]
      have hdot : npdot (.i2 m) v = .ok (.vec ((m.map fun r => r.map (Int.cast : ℤ → ℝ)).map fun r => dotList r v)) := by
        simp only [npdot]; exact hmv
      simp only [layerStep, hdot, hadd]
  | f2 m =>
      simp only [alignedW, Bool.and_eq_true, beq_iff_eq, List.all_eq_true] at hw
      obtain ⟨⟨hrect, hrows⟩, hcols⟩ := hw
      have hcv : cols m = v.length := by
        have := hcols.trans hv.symm
        exact_mod_cast this
      have hall : ∀ r ∈ m, r.length = v.length := by
        intro r hr
        have := hrect r hr
        simp only [decide_eq_true_eq] at this
        simp [this, hcv]
      obtain ⟨s, hs, hslen⟩ := haddVec (m.map fun r => dotList r v) (by simpa using hrows)
      have hadd : npadd (.vec (m.map fun r => dotList r v)) b = .ok s := by
        rw [congrFun hnp]; exact hs
      refine ⟨sigmoidVec s, ?_, by simpa [sigmoidVec_length] using hslen⟩
      have hmv : matVec m v = .ok (.vec (m.map fun r => dotList r v)) := by
        simp only [matVec]
        rw [if_pos (by simpa [List.all_eq_true] using hall)]
      have hdot : npdot (.f2 m) v = .ok (.vec (m.map fun r => dotList r v)) := by
        simp only [npdot]; exact hmv
      simp only [layerStep, hdot, hadd]
  | obj s => simp [alignedW] at hw
  | numOther nd isInt => simp [alignedW] at hw

/-- When both indexings succeed, `update` performs exactly one
`layerStep` and advances the counter. -/
theorem update_of_get {net : Network} {w b : NpArr} {u : List ℝ}
    (hw : net.weights[net.layer_counter]? = some w)
    (hb : net.biases[net.layer_counter]? = some b)
    (hstep : layerStep w b net.current_layer = .ok u) :
    update net = (.ok u,
      { net with current_layer := u, layer_counter := net.layer_counter + 1 }) := by
  unfold layerStep at hstep
  obtain ⟨d, hd, s, ha, hu⟩ :
      ∃ d, npdot w net.current_layer = .ok d ∧
        ∃ s, npadd d b = .ok s ∧ u = sigmoidVec s := by
    cases hd : npdot w net.current_layer with
    | error e => simp [hd] at hstep
    | ok d =>
        cases ha : npadd d b with
        | error e => simp [hd, ha] at hstep
        | ok s =>
            simp [hd, ha] at hstep
            exact ⟨d, rfl, s, ha, hstep.symm⟩
  simp [update, hw, hb, hd, ha, hu]

theorem Steps.length {wbs : List (NpArr × NpArr)} {v : List ℝ} {outs : List (List ℝ)}
    (h : Steps wbs v outs) : outs.length = wbs.length := by
  induction h with
  | nil => rfl
  | cons hstep hrest ih => simpa using ih

theorem Steps.deterministic {wbs : List (NpArr × NpArr)} {v : List ℝ}
    {outs outs' : List (List ℝ)} (h : Steps wbs v outs) (h' : Steps wbs v outs') :
    outs = outs' := by
  induction h generalizing outs' with
  | nil => cases h'; rfl
  | cons hstep hrest ih =>
      rename_i w0 b0 v0 u0 rest0 outs0
      cases h' with
      | cons hstep' hrest' =>
          rename_i u' outs1
          have hu : u0 = u' := by
            have := hstep.symm.trans hstep'
            simpa using this
          subst hu
          rw [ih hrest']

/-- Each produced layer is `sigmoid(np.dot(w, previous) + b)` for the
corresponding weight/bias pair. -/
theorem Steps.chain {wbs : List (NpArr × NpArr)} {v : List ℝ} {outs : List (List ℝ)}
    (h : Steps wbs v outs) :
    ∀ (i : ℕ) (w b : NpArr) (u : List ℝ), wbs[i]? = some (w, b) → (v :: outs)[i]? = some u →
      ∃ d s, npdot w u = .ok d ∧ npadd d b = .ok s ∧ outs[i]? = some (sigmoidVec s) := by
  induction h with
  | nil => intro i w b u hi; simp at hi
  | cons hstep hrest ih =>
      rename_i w0 b0 v0 u0 rest0 outs0
      intro i w b u hi hu
      cases i with
      | zero =>
          simp only [List.getElem?_cons_zero, Option.some.injEq, Prod.mk.injEq] at hi hu
          obtain ⟨rfl, rfl⟩ := hi
          subst hu
          unfold layerStep at hstep
          cases hd : npdot w0 v0 with
          | error e => simp [hd] at hstep
          | ok d =>
              cases ha : npadd d b0 with
              | error e => simp [hd, ha] at hstep
              | ok s =>
                  simp only [hd, ha] at hstep
                  refine ⟨d, s, rfl, ha, ?_⟩
                  simpa using hstep.symm
      | succ i =>
          simp only [List.getElem?_cons_succ] at hi hu
          simpa only [List.getElem?_cons_succ] using ih i w b u hi hu

/-- The update loop on an aligned window: `k` aligned transitions starting
at the current counter produce the `Steps` transcript and advance only
the current layer and the counter. -/
theorem runUpdates_ok (k : ℕ) :
    ∀ (net : Network) (sIn : ℤ) (szs : List ℤ),
    (net.current_layer.length : ℤ) = sIn →
    alignedChain (((net.weights.drop net.layer_counter).zip
      (net.biases.drop net.layer_counter)).take k) sIn szs = true →
    k ≤ (net.weights.drop net.layer_counter).length →
    k ≤ (net.biases.drop net.layer_counter).length →
    ∃ outs, runUpdates k net =
      (.ok outs, { net with current_layer := outs.getLastD net.current_layer,
                            layer_counter := net.layer_counter + k }) ∧
      Steps (((net.weights.drop net.layer_counter).zip
        (net.biases.drop net.layer_counter)).take k) net.current_layer outs := by
  induction k with
  | zero =>
      intro net sIn szs hcur hchain hkw hkb
      exact ⟨[], by simp [runUpdates], by simpa using Steps.nil net.current_layer⟩
  | succ k ih =>
      intro net sIn szs hcur hchain hkw hkb
      cases hwd : net.weights.drop net.layer_counter with
      | nil => rw [hwd] at hkw; simp at hkw
      | cons w ws' =>
          cases hbd : net.biases.drop net.layer_counter with
          | nil => rw [hbd] at hkb; simp at hkb
          | cons b bs' =>
              rw [hwd, hbd] at hchain
              simp only [List.zip_cons_cons, List.take_succ_cons] at hchain
              cases szs with
              | nil => simp [alignedChain] at hchain
              | cons sOut szs' =>
                  simp only [alignedChain, Bool.and_eq_true] at hchain
                  obtain ⟨⟨halw, halb⟩, hrest⟩ := hchain
                  obtain ⟨u, hstep, hulen⟩ := layerStep_ok halw halb hcur
                  have hw0 : net.weights[net.layer_counter]? = some w := by
                    have h0 := List.getElem?_drop net.weights net.layer_counter 0
                    rw [hwd] at h0
                    simpa using h0.symm
                  have hb0 : net.biases[net.layer_counter]? = some b := by
                    have h0 := List.getElem?_drop net.biases net.layer_counter 0
                    rw [hbd] at h0
                    simpa using h0.symm
                  have hupd := update_of_get hw0 hb0 hstep
                  have h1w : net.weights.drop (net.layer_counter + 1) = ws' := by
                    rw [← List.tail_drop, hwd]; rfl
                  have h1b : net.biases.drop (net.layer_counter + 1) = bs' := by
                    rw [← List.tail_drop, hbd]; rfl
                  obtain ⟨outs', hru, hsteps⟩ :=
                    ih { net with current_layer := u, layer_counter := net.layer_counter + 1 }
                      sOut szs' (by simpa using hulen)
                      (by simpa [h1w, h1b] using hrest)
                      (by simp only [h1w]
                          have := hkw
                          rw [hwd] at this
                          simpa using this)
                      (by simp only [h1b]
                          have := hkb
                          rw [hbd] at this
                          simpa using this)
                  refine ⟨u :: outs', ?_, ?_⟩
                  · have hc : net.layer_counter + 1 + k = net.layer_counter + (k + 1) := by omega
                    have hlast : ((u :: outs').getLast?).getD net.current_layer =
                        (outs'.getLast?).getD u := by
                      simpa using (List.getLastD_cons net.current_layer u outs')
                    simp [runUpdates, hupd, hru, hc, hlast]
                  · simp only [List.zip_cons_cons, List.take_succ_cons]
                    exact Steps.cons hstep (by simpa [h1w, h1b] using hsteps)

/-- An aligned weight entry passes its `check_shapes` comparison and the
loop moves on. -/
theorem checkW_step {w : NpArr} {sIn sOut : ℤ} {ls : List ℤ} {n : ℕ} (ws' : List NpArr)
    (halw : alignedW w sIn sOut = true)
    (hn : ls[n]? = some sIn) (hn1 : ls[n + 1]? = some sOut) :
    checkW ls n (w :: ws') = checkW ls (n + 1) ws' := by
  cases w with
  | i1 v =>
      have hv : (v.length : ℤ) = sIn := by simpa [alignedW] using halw
      simp [checkW, NpArr.shape, hn, hv]
  | f1 v =>
      have hv : (v.length : ℤ) = sIn := by simpa [alignedW] using halw
      simp [checkW, NpArr.shape, hn, hv]
  | i2 m =>
      simp only [alignedW, Bool.and_eq_true, beq_iff_eq] at halw
      obtain ⟨⟨_, hrows⟩, hcols⟩ := halw
      simp [checkW, NpArr.shape, hn, hn1, hrows, hcols]
  | f2 m =>
      simp only [alignedW, Bool.and_eq_true, beq_iff_eq] at halw
      obtain ⟨⟨_, hrows⟩, hcols⟩ := halw
      simp [checkW, NpArr.shape, hn, hn1, hrows, hcols]
  | obj s => simp [alignedW] at halw
  | numOther nd isInt => simp [alignedW] at halw

/-- An aligned bias entry passes its `check_shapes` comparison and the
loop moves on. -/
theorem checkB_step {b : NpArr} {sOut : ℤ} {ls : List ℤ} {n : ℕ} (bs' : List NpArr)
    (halb : alignedB b sOut = true) (hn1 : ls[n + 1]? = some sOut) :
    checkB ls n (b :: bs') = checkB ls (n + 1) bs' := by
  cases b with
  | i1 v =>
      have hv : (v.length : ℤ) = sOut := by simpa [alignedB] using halb
      simp [checkB, NpArr.shape, hn1, hv]
  | f1 v =>
      have hv : (v.length : ℤ) = sOut := by simpa [alignedB] using halb
      simp [checkB, NpArr.shape, hn1, hv]
  | i2 m => simp [alignedB] at halb
  | f2 m => simp [alignedB] at halb
  | obj s => simp [alignedB] at halb
  | numOther nd isInt => simp [alignedB] at halb

/-- The weight loop of `check_shapes` succeeds on an aligned chain. -/
theorem checkW_ok (ws : List NpArr) :
    ∀ (bs : List NpArr) (n : ℕ) (ls : List ℤ) (sIn : ℤ) (szs : List ℤ),
    ls[n]? = some sIn →
    (∀ i : ℕ, szs[i]? = ls[n + 1 + i]?) →
    alignedChain (ws.zip bs) sIn szs = true →
    ws.length ≤ bs.length →
    checkW ls n ws = .ok () := by
  induction ws with
  | nil => intro bs n ls sIn szs _ _ _ _; simp [checkW]
  | cons w ws' ih =>
      intro bs n ls sIn szs hn hshift hchain hlen
      cases bs with
      | nil => simp at hlen
      | cons b bs' =>
          simp only [List.zip_cons_cons] at hchain
          cases szs with
          | nil => simp [alignedChain] at hchain
          | cons sOut szs' =>
              simp only [alignedChain, Bool.and_eq_true] at hchain
              obtain ⟨⟨halw, halb⟩, hrest⟩ := hchain
              have hn1 : ls[n + 1]? = some sOut := by
                have h0 := hshift 0
                simpa using h0.symm
              rw [checkW_step ws' halw hn hn1]
              refine ih bs' (n + 1) ls sOut szs' hn1 ?_ hrest (by simpa using hlen)
              intro i
              have h1 := hshift (i + 1)
              have harith : n + 1 + (i + 1) = n + 1 + 1 + i := by omega
              rw [harith] at h1
              simpa using h1

/-- The bias loop of `check_shapes` succeeds on an aligned chain. -/
theorem checkB_ok (bs : List NpArr) :
    ∀ (ws : List NpArr) (n : ℕ) (ls : List ℤ) (sIn : ℤ) (szs : List ℤ),
    (∀ i : ℕ, szs[i]? = ls[n + 1 + i]?) →
    alignedChain (ws.zip bs) sIn szs = true →
    bs.length ≤ ws.length →
    checkB ls n bs = .ok () := by
  induction bs with
  | nil => intro ws n ls sIn szs _ _ _; simp [checkB]
  | cons b bs' ih =>
      intro ws n ls sIn szs hshift hchain hlen
      cases ws with
      | nil => simp at hlen
      | cons w ws' =>
          simp only [List.zip_cons_cons] at hchain
          cases szs with
          | nil => simp [alignedChain] at hchain
          | cons sOut szs' =>
              simp only [alignedChain, Bool.and_eq_true] at hchain
              obtain ⟨⟨halw, halb⟩, hrest⟩ := hchain
              have hn1 : ls[n + 1]? = some sOut := by
                have h0 := hshift 0
                simpa using h0.symm
              rw [checkB_step bs' halb hn1]
              refine ih ws' (n + 1) ls sOut szs' ?_ hrest (by simpa using hlen)
              intro i
              have h1 := hshift (i + 1)
              have harith : n + 1 + (i + 1) = n + 1 + 1 + i := by omega
              rw [harith] at h1
              simpa using h1

/-- On a network with valid, mutually aligned shapes, `check_shapes`
raises nothing. -/
theorem checkShapes_ok {net : Network} (h : validShapes net = true) :
    checkShapes net = .ok () := by
  simp only [validShapes, Bool.and_eq_true, beq_iff_eq] at h
  obtain ⟨⟨hlb, hlw⟩, halign⟩ := h
  cases hls : net.layer_sizes with
  | nil => simp [alignedNet, hls] at halign
  | cons s0 rest =>
      simp only [alignedNet, hls, Bool.and_eq_true, beq_iff_eq] at halign
      obtain ⟨hfl, hchain⟩ := halign
      have hn : net.layer_sizes[0]? = some s0 := by simp [hls]
      have hshift : ∀ i : ℕ, rest[i]? = net.layer_sizes[0 + 1 + i]? := by
        intro i
        have harith : 0 + 1 + i = i + 1 := by omega
        rw [harith]
        simp [hls]
      have hcw := checkW_ok net.weights net.biases 0 net.layer_sizes s0 rest hn hshift hchain
        (by omega)
      have hcb := checkB_ok net.biases net.weights 0 net.layer_sizes s0 rest hshift hchain
        (by omega)
      simp [checkShapes, hcw, hcb]

/-- On a network with valid, mutually aligned shapes (and in a state the
class can reach: when the counter is zero the current layer is the first
layer), `run` succeeds: it returns the first layer followed by the
`Steps` transcript of one update per transition, and the final state
differs from the initial one only in the current layer and the counter. -/
theorem run_ok {net : Network} (h : validShapes net = true)
    (hinv : net.current_layer = net.first_layer ∨ net.layer_counter ≠ 0) :
    ∃ outs, run net = (.ok (net.first_layer :: outs),
      { net with current_layer := outs.getLastD net.first_layer,
                 layer_counter := net.weights.length }) ∧
      Steps (net.weights.zip net.biases) net.first_layer outs := by
  have hcs := checkShapes_ok h
  simp only [validShapes, Bool.and_eq_true, beq_iff_eq] at h
  obtain ⟨⟨hlb, hlw⟩, halign⟩ := h
  cases hls : net.layer_sizes with
  | nil => simp [alignedNet, hls] at halign
  | cons s0 rest =>
      simp only [alignedNet, hls, Bool.and_eq_true, beq_iff_eq] at halign
      obtain ⟨hfl, hchain⟩ := halign
      have hk : net.layer_sizes.length - 1 = net.weights.length := by omega
      have hzlen : (net.weights.zip net.biases).length = net.weights.length := by
        simp [List.length_zip, hlb]
      have hone := runUpdates_ok net.weights.length
        { net with layer_counter := 0, current_layer := net.first_layer } s0 rest
        (by simpa using hfl)
        (by simpa [List.take_of_length_le (le_of_eq hzlen)] using hchain)
        (by simp)
        (by simp [← hlb])
      obtain ⟨outs, hru, hsteps⟩ := hone
      have htake : (net.weights.zip net.biases).take net.weights.length =
          net.weights.zip net.biases := List.take_of_length_le (le_of_eq hzlen)
      dsimp only at hru hsteps
      rw [List.drop_zero, List.drop_zero, htake] at hsteps
      refine ⟨outs, ?_, by simpa using hsteps⟩
      have hnet1 :
          (if net.layer_counter = 0 then net
           else { net with layer_counter := 0, current_layer := net.first_layer }) =
          { net with layer_counter := 0, current_layer := net.first_layer } := by
        by_cases h0 : net.layer_counter = 0
        · rw [if_pos h0]
          rcases hinv with hcur | hne
          · cases net
            simp_all
          · exact absurd h0 hne
        · rw [if_neg h0]
      simp only [run, hcs]
      rw [hnet1]
      have hk1 :
          ({ net with layer_counter := 0, current_layer := net.first_layer } :
            Network).layer_sizes.length - 1 = net.weights.length := by
        simpa using hk
      rw [hk1, hru]
      simp [hls]

/-- C1.  For every network whose weights, biases and layer_sizes have
valid, mutually aligned shapes (reachable state: when the counter is
zero the current layer equals the stored first layer, which the
constructor produced as the sigmoid of its input vector `fl`), `run`
returns a list `out` with `out[0]` equal to the sigmoid of the
constructor input (the stored first layer), and for every
`k < len(layer_sizes) - 1`,
`out[k+1] = sigmoid(np.dot(weights[k], out[k]) + biases[k])`,
each layer produced from the previous one in order. -/
theorem C1_run_layer_recurrence {net : Network} {fl : List ℝ}
    (hfl : net.first_layer = sigmoidVec fl)
    (h : validShapes net = true)
    (hinv : net.current_layer = net.first_layer ∨ net.layer_counter ≠ 0) :
    ∃ out, (run net).1 = .ok out ∧ out[0]? = some (sigmoidVec fl) ∧
      ∀ (k : ℕ), k + 1 < net.layer_sizes.length →
        ∃ w b u d s, net.weights[k]? = some w ∧ net.biases[k]? = some b ∧
          out[k]? = some u ∧ npdot w u = .ok d ∧ npadd d b = .ok s ∧
          out[k + 1]? = some (sigmoidVec s) := by
  obtain ⟨outs, hrun, hsteps⟩ := run_ok h hinv
  simp only [validShapes, Bool.and_eq_true, beq_iff_eq] at h
  obtain ⟨⟨hlb, hlw⟩, _⟩ := h
  refine ⟨net.first_layer :: outs, by rw [hrun], by simp [hfl], ?_⟩
  intro k hk
  have hkw : k < net.weights.length := by omega
  have hkb : k < net.biases.length := by omega
  have hw : net.weights[k]? = some net.weights[k] := List.getElem?_eq_getElem hkw
  have hb : net.biases[k]? = some net.biases[k] := List.getElem?_eq_getElem hkb
  have hzip : (net.weights.zip net.biases)[k]? = some (net.weights[k], net.biases[k]) :=
    List.getElem?_zip_eq_some.mpr ⟨hw, hb⟩
  have houts : outs.length = net.weights.length := by
    rw [hsteps.length]
    simp [List.length_zip, hlb]
  have hku : k < (net.first_layer :: outs).length := by simp; omega
  have hu : (net.first_layer :: outs)[k]? = some (net.first_layer :: outs)[k] :=
    List.getElem?_eq_getElem hku
  obtain ⟨d, s, hd, ha, hout⟩ := hsteps.chain k net.weights[k] net.biases[k]
    (net.first_layer :: outs)[k] hzip hu
  exact ⟨net.weights[k], net.biases[k], (net.first_layer :: outs)[k], d, s,
    hw, hb, hu, hd, ha, by simpa using hout⟩

/-- C2.  For every network with valid, mutually aligned shapes (in a
reachable state), `run` returns a list whose length is the number of
layers `len(layer_sizes)`. -/
theorem C2_run_length {net : Network}
    (h : validShapes net = true)
    (hinv : net.current_layer = net.first_layer ∨ net.layer_counter ≠ 0) :
    ∃ out, (run net).1 = .ok out ∧ out.length = net.layer_sizes.length := by
  obtain ⟨outs, hrun, hsteps⟩ := run_ok h hinv
  simp only [validShapes, Bool.and_eq_true, beq_iff_eq] at h
  obtain ⟨⟨hlb, hlw⟩, _⟩ := h
  refine ⟨net.first_layer :: outs, by rw [hrun], ?_⟩
  have houts : outs.length = net.weights.length := by
    rw [hsteps.length]
    simp [List.length_zip, hlb]
  simp [houts]
  omega

/-- C7.  `run` is idempotent in its result: on a network with valid,
mutually aligned shapes (in a reachable state), running again from the
state a first `run` left behind resets to the first layer and returns
the same list. -/
theorem C7_run_idempotent {net : Network}
    (h : validShapes net = true)
    (hinv : net.current_layer = net.first_layer ∨ net.layer_counter ≠ 0) :
    ∃ out, (run net).1 = .ok out ∧ (run (run net).2).1 = .ok out := by
  obtain ⟨outs, hrun, hsteps⟩ := run_ok h hinv
  have h1 : validShapes (run net).2 = true := by rw [hrun]; exact h
  have houts : outs.length = net.weights.length := by
    rw [hsteps.length]
    simp only [validShapes, Bool.and_eq_true, beq_iff_eq] at h
    simp [List.length_zip, h.1.1]
  have hinv1 : (run net).2.current_layer = (run net).2.first_layer ∨
      (run net).2.layer_counter ≠ 0 := by
    rw [hrun]
    cases hw0 : net.weights.length with
    | zero =>
        left
        have : outs = [] := List.length_eq_zero.mp (by omega)
        simp [this, hw0]
    | succ j => right; simp [hw0]
  obtain ⟨outs', hrun2, hsteps2⟩ := run_ok h1 hinv1
  have hfields : (run net).2.first_layer = net.first_layer ∧
      (run net).2.weights = net.weights ∧ (run net).2.biases = net.biases := by
    rw [hrun]; exact ⟨rfl, rfl, rfl⟩
  obtain ⟨hf, hwf, hbf⟩ := hfields
  rw [hf, hwf, hbf] at hrun2 hsteps2
  have houtseq : outs' = outs := (hsteps2.deterministic hsteps).symm ▸ rfl
  refine ⟨net.first_layer :: outs, by rw [hrun], ?_⟩
  rw [hrun2]
  rw [hsteps2.deterministic hsteps]

theorem update_frame (net : Network) :
    (update net).2.first_layer = net.first_layer ∧
    (update net).2.layer_sizes = net.layer_sizes ∧
    (update net).2.weights = net.weights ∧
    (update net).2.biases = net.biases := by
  unfold update
  repeat' split
  all_goals simp

theorem runUpdates_frame (k : ℕ) : ∀ net : Network,
    (runUpdates k net).2.first_layer = net.first_layer ∧
    (runUpdates k net).2.layer_sizes = net.layer_sizes ∧
    (runUpdates k net).2.weights = net.weights ∧
    (runUpdates k net).2.biases = net.biases := by
  induction k with
  | zero => intro net; simp [runUpdates]
  | succ k ih =>
      intro net
      have hu := update_frame net
      cases hupd : update net with
      | mk r net1 =>
          rw [hupd] at hu
          cases r with
          | error e => simpa [runUpdates, hupd] using hu
          | ok u =>
              have hr := ih net1
              cases hrr : runUpdates k net1 with
              | mk r2 net2 =>
                  rw [hrr] at hr
                  cases r2 with
                  | error e =>
                      simp only [runUpdates, hupd, hrr]
                      simp only at hu hr
                      exact ⟨hr.1.trans hu.1, (hr.2.1).trans hu.2.1,
                        (hr.2.2.1).trans hu.2.2.1, (hr.2.2.2).trans hu.2.2.2⟩
                  | ok o =>
                      simp only [runUpdates, hupd, hrr]
                      simp only at hu hr
                      exact ⟨hr.1.trans hu.1, (hr.2.1).trans hu.2.1,
                        (hr.2.2.1).trans hu.2.2.1, (hr.2.2.2).trans hu.2.2.2⟩

theorem run_frame (net : Network) :
    (run net).2.first_layer = net.first_layer ∧
    (run net).2.layer_sizes = net.layer_sizes ∧
    (run net).2.weights = net.weights ∧
    (run net).2.biases = net.biases := by
  unfold run
  cases hcs : checkShapes net with
  | error e => simp
  | ok u =>
      simp only []
      set net1 := if net.layer_counter = 0 then net
        else { net with layer_counter := 0, current_layer := net.first_layer } with hn1
      have hfields : net1.first_layer = net.first_layer ∧
          net1.layer_sizes = net.layer_sizes ∧
          net1.weights = net.weights ∧ net1.biases = net.biases := by
        rw [hn1]
        by_cases h0 : net.layer_counter = 0 <;> simp [h0]
      have hr := runUpdates_frame (net1.layer_sizes.length - 1) net1
      cases hrr : runUpdates (net1.layer_sizes.length - 1) net1 with
      | mk r2 net2 =>
          rw [hrr] at hr
          simp only at hr
          cases r2 with
          | error e =>
              simp only [hrr]
              exact ⟨hr.1.trans hfields.1, hr.2.1.trans hfields.2.1,
                hr.2.2.1.trans hfields.2.2.1, hr.2.2.2.trans hfields.2.2.2⟩
          | ok o =>
              simp only [hrr]
              exact ⟨hr.1.trans hfields.1, hr.2.1.trans hfields.2.1,
                hr.2.2.1.trans hfields.2.2.1, hr.2.2.2.trans hfields.2.2.2⟩

/-- C8.  `update` and `run` never change `first_layer`, `layer_sizes`,
`weights` or `biases`; the new state can differ from the old one only in
the current layer and the layer counter. -/
theorem C8_update_run_frame (net : Network) :
    ((update net).2.first_layer = net.first_layer ∧
     (update net).2.layer_sizes = net.layer_sizes ∧
     (update net).2.weights = net.weights ∧
     (update net).2.biases = net.biases) ∧
    ((run net).2.first_layer = net.first_layer ∧
     (run net).2.layer_sizes = net.layer_sizes ∧
     (run net).2.weights = net.weights ∧
     (run net).2.biases = net.biases) :=
  ⟨update_frame net, run_frame net⟩

/-- The update loop splits: `a + b` iterations are `a` iterations and
then `b` more from the reached state. -/
theorem runUpdates_add (a b : ℕ) : ∀ net : Network,
    runUpdates (a + b) net =
      match runUpdates a net with
      | (.ok o1, n1) =>
          match runUpdates b n1 with
          | (.ok o2, n2) => (.ok (o1 ++ o2), n2)
          | (.error e, n2) => (.error e, n2)
      | (.error e, n1) => (.error e, n1) := by
  induction a with
  | zero =>
      intro net
      simp only [Nat.zero_add, runUpdates]
      cases hr : runUpdates b net with
      | mk r n2 => cases r <;> simp
  | succ a ih =>
      intro net
      have hidx : a + 1 + b = (a + b) + 1 := by omega
      rw [hidx]
      simp only [runUpdates]
      cases hu : update net with
      | mk r n1 =>
          cases r with
          | error e => simp
          | ok u =>
              dsimp only
              rw [ih n1]
              cases hra : runUpdates a n1 with
              | mk ra na =>
                  cases ra with
                  | error e => simp
                  | ok oa =>
                      cases hrb : runUpdates b na with
                      | mk rb nb => cases rb <;> simp [hrb]

/-- When the counter has reached the end of the weights list, the next
iteration raises `IndexError` while indexing `weights` and leaves the
state unchanged. -/
theorem runUpdates_exhausted {net : Network} (j : ℕ)
    (h : net.weights.length ≤ net.layer_counter) :
    runUpdates (j + 1) net = (.error (.indexError "list index out of range"), net) := by
  have hw : net.weights[net.layer_counter]? = none := List.getElem?_eq_none h
  simp [runUpdates, update, hw]

/-- In a reachable state the conditional reset at the start of `run`
always leads to the reset state. -/
theorem reset_eq {net : Network}
    (hinv : net.current_layer = net.first_layer ∨ net.layer_counter ≠ 0) :
    (if net.layer_counter = 0 then net
     else { net with layer_counter := 0, current_layer := net.first_layer }) =
    { net with layer_counter := 0, current_layer := net.first_layer } := by
  by_cases h0 : net.layer_counter = 0
  · rw [if_pos h0]
    rcases hinv with hcur | hne
    · cases net
      simp_all
    · exact absurd h0 hne
  · rw [if_neg h0]

/-- C3, amended.  The weights and biases setters never compare list
lengths with `layer_sizes`, and `check_shapes` only validates the
entries present.  When both lists are shorter than
`len(layer_sizes) - 1` but their entries align, no error is raised at
assignment or by the shape check; `run` computes the activations of
every present transition (advancing the counter to the full weights
length) and only then raises an `IndexError` — not a validation error —
when the weight list is exhausted. -/
theorem C3_short_lists_run_overrun {net : Network}
    (hlb : net.biases.length = net.weights.length)
    (hshort : net.weights.length + 1 < net.layer_sizes.length)
    (halign : alignedNet net = true)
    (hinv : net.current_layer = net.first_layer ∨ net.layer_counter ≠ 0) :
    checkShapes net = .ok () ∧
    (run net).1 = .error (.indexError "list index out of range") ∧
    (run net).2.layer_counter = net.weights.length := by
  cases hls : net.layer_sizes with
  | nil => rw [hls] at hshort; simp at hshort
  | cons s0 rest =>
      simp only [alignedNet, hls, Bool.and_eq_true, beq_iff_eq] at halign
      obtain ⟨hfl, hchain⟩ := halign
      have hn : net.layer_sizes[0]? = some s0 := by simp [hls]
      have hshift : ∀ i : ℕ, rest[i]? = net.layer_sizes[0 + 1 + i]? := by
        intro i
        have harith : 0 + 1 + i = i + 1 := by omega
        rw [harith]
        simp [hls]
      have hcw := checkW_ok net.weights net.biases 0 net.layer_sizes s0 rest hn hshift hchain
        (by omega)
      have hcb := checkB_ok net.biases net.weights 0 net.layer_sizes s0 rest hshift hchain
        (by omega)
      have hcs : checkShapes net = .ok () := by simp [checkShapes, hcw, hcb]
      refine ⟨hcs, ?_, ?_⟩ <;>
      · have hzlen : (net.weights.zip net.biases).length = net.weights.length := by
          simp [List.length_zip, hlb]
        have hone := runUpdates_ok net.weights.length
          { net with layer_counter := 0, current_layer := net.first_layer } s0 rest
          (by simpa using hfl)
          (by simpa [List.take_of_length_le (le_of_eq hzlen)] using hchain)
          (by simp)
          (by simp [← hlb])
        obtain ⟨outs, hru, _⟩ := hone
        dsimp only at hru
        have hk : net.layer_sizes.length - 1 =
            net.weights.length + ((net.layer_sizes.length - 2 - net.weights.length) + 1) := by
          omega
        have hexh : runUpdates ((net.layer_sizes.length - 2 - net.weights.length) + 1)
            ({ net with layer_counter := 0 + net.weights.length,
                        current_layer := outs.getLastD net.first_layer } : Network) =
            (.error (.indexError "list index out of range"),
             { net with layer_counter := 0 + net.weights.length,
                        current_layer := outs.getLastD net.first_layer }) :=
          runUpdates_exhausted _ (by simp)
        have hall : runUpdates (net.layer_sizes.length - 1)
            ({ net with layer_counter := 0, current_layer := net.first_layer } : Network) =
            (.error (.indexError "list index out of range"),
             { net with layer_counter := 0 + net.weights.length,
                        current_layer := outs.getLastD net.first_layer }) := by
          rw [hk, runUpdates_add, hru]
          dsimp only
          rw [hexh]
        simp only [run, hcs, reset_eq hinv]
        have hk1 : ({ net with layer_counter := 0, current_layer := net.first_layer } :
            Network).layer_sizes.length - 1 = net.layer_sizes.length - 1 := rfl
        rw [hk1, hall]
        try simp

/-- C3, counterexample to the claim as stated.  `shortNet` has one
weight and one bias entry but three declared layers: both setters accept
its parameter lists, `check_shapes` raises nothing, yet `run` performs a
full update (the final counter is `1`, so a layer activation was
computed while the length invariant was violated) before failing with an
`IndexError`, which is raised during the run, not at assignment or by
the shape check. -/
theorem C3_counterexample :
    setWeights (.lst [.arr (.f2 [[0]])]) = .ok [.f2 [[0]]] ∧
    setBiases (.lst [.arr (.f1 [0])]) = .ok [.f1 [0]] ∧
    shortNet.weights.length ≠ shortNet.layer_sizes.length - 1 ∧
    checkShapes shortNet = .ok () ∧
    (run shortNet).1 = .error (.indexError "list index out of range") ∧
    (run shortNet).2.layer_counter = 1 :=
  ⟨rfl, rfl, by decide, rfl, rfl, rfl⟩

/-- One iteration of the weight loop of `check_shapes`, with both
`layer_sizes` indices in range: the entry either passes its comparison
and the loop moves on, or a `ValueError` is raised. -/
theorem checkW_entry (w : NpArr) (ws' : List NpArr) (n : ℕ) (ls : List ℤ)
    (hlt : n < ls.length) (hlt1 : n + 1 < ls.length) :
    checkW ls n (w :: ws') =
      if wMatch ls n w = true then checkW ls (n + 1) ws'
      else .error (.valueError
        "Shapes of the weight matrix does not coincide with the layer sizes.") := by
  have hn : ls[n]? = some (ls.getD n 0) := by
    rw [List.getElem?_eq_getElem hlt, List.getD_eq_getElem ls 0 hlt]
  have hn1 : ls[n + 1]? = some (ls.getD (n + 1) 0) := by
    rw [List.getElem?_eq_getElem hlt1, List.getD_eq_getElem ls 0 hlt1]
  by_cases hs2 : w.shape.length = 2
  · by_cases h0 : (w.shape.headD 0 : ℤ) = ls.getD (n + 1) 0
    · by_cases h1 : (w.shape.getD 1 0 : ℤ) = ls.getD n 0
      · have hL : checkW ls n (w :: ws') = checkW ls (n + 1) ws' := by
          simp only [checkW]
          rw [if_pos hs2, hn1]
          dsimp only
          rw [if_neg (not_ne_iff.mpr h0), hn]
          dsimp only
          rw [if_neg (not_ne_iff.mpr h1)]
        have hR : wMatch ls n w = true := by
          simp only [wMatch]
          rw [if_pos hs2]
          simp only [Bool.and_eq_true, beq_iff_eq]
          exact ⟨h0, h1⟩
        rw [hL, if_pos hR]
      · have hL : checkW ls n (w :: ws') = .error (.valueError
            "Shapes of the weight matrix does not coincide with the layer sizes.") := by
          simp only [checkW]
          rw [if_pos hs2, hn1]
          dsimp only
          rw [if_neg (not_ne_iff.mpr h0), hn]
          dsimp only
          rw [if_pos h1]
        have hR : ¬ wMatch ls n w = true := by
          simp only [wMatch]
          rw [if_pos hs2]
          simp only [Bool.and_eq_true, beq_iff_eq]
          rintro ⟨c0, c1⟩
          exact h1 c1
        rw [hL, if_neg hR]
    · have hL : checkW ls n (w :: ws') = .error (.valueError
          "Shapes of the weight matrix does not coincide with the layer sizes.") := by
        simp only [checkW]
        rw [if_pos hs2, hn1]
        dsimp only
        rw [if_pos h0]
      have hR : ¬ wMatch ls n w = true := by
        simp only [wMatch]
        rw [if_pos hs2]
        simp only [Bool.and_eq_true, beq_iff_eq]
        rintro ⟨c0, c1⟩
        exact h0 c0
      rw [hL, if_neg hR]
  · by_cases hs1 : w.shape.length = 1
    · by_cases h0 : (w.shape.headD 0 : ℤ) = ls.getD n 0
      · have hL : checkW ls n (w :: ws') = checkW ls (n + 1) ws' := by
          simp only [checkW]
          rw [if_neg hs2, if_pos hs1, hn]
          dsimp only
          rw [if_neg (not_ne_iff.mpr h0)]
        have hR : wMatch ls n w = true := by
          simp only [wMatch]
          rw [if_neg hs2, if_pos hs1]
          simp only [beq_iff_eq]
          exact h0
        rw [hL, if_pos hR]
      · have hL : checkW ls n (w :: ws') = .error (.valueError
            "Shapes of the weight matrix does not coincide with the layer sizes.") := by
          simp only [checkW]
          rw [if_neg hs2, if_pos hs1, hn]
          dsimp only
          rw [if_pos h0]
        have hR : ¬ wMatch ls n w = true := by
          simp only [wMatch]
          rw [if_neg hs2, if_pos hs1]
          simp only [beq_iff_eq]
          exact h0
        rw [hL, if_neg hR]
    · have hL : checkW ls n (w :: ws') = checkW ls (n + 1) ws' := by
        simp only [checkW]
        rw [if_neg hs2, if_neg hs1]
      have hR : wMatch ls n w = true := by
        simp only [wMatch]
        rw [if_neg hs2, if_neg hs1]
      rw [hL, if_pos hR]

/-- One iteration of the bias loop of `check_shapes`, with the
`layer_sizes` index in range and a bias entry of at least one dimension:
the entry either passes its comparison and the loop moves on, or a
`ValueError` is raised. -/
theorem checkB_entry (b : NpArr) (bs' : List NpArr) (n : ℕ) (ls : List ℤ)
    (hlt1 : n + 1 < ls.length) (hnd : b.ndim ≠ 0) :
    checkB ls n (b :: bs') =
      if bMatch ls n b = true then checkB ls (n + 1) bs'
      else .error (.valueError
        "Shape of the bias vector does not coincide with the layer size.") := by
  have hn1 : ls[n + 1]? = some (ls.getD (n + 1) 0) := by
    rw [List.getElem?_eq_getElem hlt1, List.getD_eq_getElem ls 0 hlt1]
  have hhead : b.shape.head? = some (b.shape.headD 0) := by
    cases hsh : b.shape with
    | nil => exact absurd (by simp [NpArr.ndim, hsh]) hnd
    | cons x xs => simp
  by_cases h0 : (b.shape.headD 0 : ℤ) = ls.getD (n + 1) 0
  · have hL : checkB ls n (b :: bs') = checkB ls (n + 1) bs' := by
      simp only [checkB]
      rw [hhead]
      dsimp only
      rw [hn1]
      dsimp only
      rw [if_neg (not_ne_iff.mpr h0)]
    have hR : bMatch ls n b = true := by
      simp only [bMatch]
      simp only [beq_iff_eq]
      exact h0
    rw [hL, if_pos hR]
  · have hL : checkB ls n (b :: bs') = .error (.valueError
        "Shape of the bias vector does not coincide with the layer size.") := by
      simp only [checkB]
      rw [hhead]
      dsimp only
      rw [hn1]
      dsimp only
      rw [if_pos h0]
    have hR : ¬ bMatch ls n b = true := by
      simp only [bMatch]
      simp only [beq_iff_eq]
      exact h0
    rw [hL, if_neg hR]

/-- The weight loop of `check_shapes`, under in-range indices, returns
`ok` exactly when every entry passes its comparison, and a `ValueError`
otherwise. -/
theorem checkW_cases (ws : List NpArr) : ∀ (n : ℕ) (ls : List ℤ),
    n + ws.length + 1 ≤ ls.length →
    ((checkW ls n ws = .ok () ↔ wMatchAll ls n ws = true) ∧
     (wMatchAll ls n ws = false → ∃ m, checkW ls n ws = .error (.valueError m))) := by
  induction ws with
  | nil =>
      intro n ls _
      exact ⟨by simp [checkW, wMatchAll], by simp [wMatchAll]⟩
  | cons w ws' ih =>
      intro n ls hrange
      have hlt : n < ls.length := by simp at hrange; omega
      have hlt1 : n + 1 < ls.length := by simp at hrange; omega
      have hrange' : n + 1 + ws'.length + 1 ≤ ls.length := by simp at hrange; omega
      obtain ⟨ihiff, iherr⟩ := ih (n + 1) ls hrange'
      rw [checkW_entry w ws' n ls hlt hlt1]
      cases hwm : wMatch ls n w with
      | true =>
          rw [if_pos rfl]
          constructor
          · rw [ihiff]
            simp [wMatchAll, hwm]
          · intro hfalse
            exact iherr (by simpa [wMatchAll, hwm] using hfalse)
      | false =>
          rw [if_neg (by simp)]
          constructor
          · simp [wMatchAll, hwm]
          · intro _
            exact ⟨_, rfl⟩

/-- The bias loop of `check_shapes`, under in-range indices and bias
entries of at least one dimension, returns `ok` exactly when every entry
passes its comparison, and a `ValueError` otherwise. -/
theorem checkB_cases (bs : List NpArr) : ∀ (n : ℕ) (ls : List ℤ),
    n + bs.length + 1 ≤ ls.length →
    (∀ b ∈ bs, b.ndim ≠ 0) →
    ((checkB ls n bs = .ok () ↔ bMatchAll ls n bs = true) ∧
     (bMatchAll ls n bs = false → ∃ m, checkB ls n bs = .error (.valueError m))) := by
  induction bs with
  | nil =>
      intro n ls _ _
      exact ⟨by simp [checkB, bMatchAll], by simp [bMatchAll]⟩
  | cons b bs' ih =>
      intro n ls hrange hnd
      have hlt1 : n + 1 < ls.length := by simp at hrange; omega
      have hrange' : n + 1 + bs'.length + 1 ≤ ls.length := by simp at hrange; omega
      have hnd' : ∀ x ∈ bs', x.ndim ≠ 0 := fun x hx => hnd x (List.mem_cons_of_mem b hx)
      obtain ⟨ihiff, iherr⟩ := ih (n + 1) ls hrange' hnd'
      rw [checkB_entry b bs' n ls hlt1 (hnd b (List.mem_cons_self b bs'))]
      cases hbm : bMatch ls n b with
      | true =>
          rw [if_pos rfl]
          constructor
          · rw [ihiff]
            simp [bMatchAll, hbm]
          · intro hfalse
            exact iherr (by simpa [bMatchAll, hbm] using hfalse)
      | false =>
          rw [if_neg (by simp)]
          constructor
          · simp [bMatchAll, hbm]
          · intro _
            exact ⟨_, rfl⟩

/-- C6.  On a network whose weights and biases lists each have length
`len(layer_sizes) - 1` (and whose bias entries are at least
one-dimensional, as the biases setter guarantees), `check_shapes` raises
a `ValueError` if and only if some 2-D weight has a shape other than
`(layer_sizes[n+1], layer_sizes[n])`, some 1-D weight fails its
`shape[0] == layer_sizes[n]` check, or some bias has
`shape[0] != layer_sizes[n+1]`; when every entry matches, no error is
raised. -/
theorem C6_checkShapes_iff {net : Network}
    (hw : net.weights.length + 1 = net.layer_sizes.length)
    (hb : net.biases.length + 1 = net.layer_sizes.length)
    (hbd : ∀ b ∈ net.biases, b.ndim ≠ 0) :
    (checkShapes net = .ok () ↔ entriesMatch net = true) ∧
    (entriesMatch net = false → ∃ msg, checkShapes net = .error (.valueError msg)) := by
  obtain ⟨hwiff, hwerr⟩ := checkW_cases net.weights 0 net.layer_sizes (by omega)
  obtain ⟨hbiff, hberr⟩ := checkB_cases net.biases 0 net.layer_sizes (by omega) hbd
  have hiff : checkShapes net = .ok () ↔ entriesMatch net = true := by
    cases hwa : wMatchAll net.layer_sizes 0 net.weights with
    | false =>
        obtain ⟨m, hm1⟩ := hwerr hwa
        simp [checkShapes, hm1, entriesMatch, hwa]
    | true =>
        have hcw := hwiff.mpr hwa
        simp [checkShapes, hcw, entriesMatch, hwa, hbiff]
  refine ⟨hiff, ?_⟩
  intro hm
  cases hwa : wMatchAll net.layer_sizes 0 net.weights with
  | false =>
      obtain ⟨m, hm1⟩ := hwerr hwa
      exact ⟨m, by simp [checkShapes, hm1]⟩
  | true =>
      have hcw : checkW net.layer_sizes 0 net.weights = .ok () := hwiff.mpr hwa
      have hba : bMatchAll net.layer_sizes 0 net.biases = false := by
        simpa [entriesMatch, hwa] using hm
      obtain ⟨m, hm2⟩ := hberr hba
      exact ⟨m, by simp [checkShapes, hcw, hm2]⟩

/-- C4.  `sigmoid_function` is the elementwise logistic function
`1/(1 + e^(-x))`, and on every real input its value lies strictly
between 0 and 1. -/
theorem C4_sigmoid_logistic_bounds :
    (∀ v : List ℝ, sigmoidVec v = v.map sigmoid) ∧
    ∀ x : ℝ, sigmoid x = 1 / (1 + Real.exp (-x)) ∧ 0 < sigmoid x ∧ sigmoid x < 1 := by
  refine ⟨fun v => rfl, fun x => ⟨rfl, ?_, ?_⟩⟩
  · show 0 < 1 / (1 + Real.exp (-x))
    positivity
  · show 1 / (1 + Real.exp (-x)) < 1
    rw [div_lt_one (by positivity)]
    linarith [Real.exp_pos (-x)]

/-- When the `layer_sizes` setter rejects its argument during
construction, the constructor propagates the error, but only after the
input vector has already been passed through the sigmoid. -/
theorem init_error_of_setLayerSizes {fl : List ℝ} {v : PyObj} {wIn bIn : PyList} {e : PyErr}
    (he : setLayerSizes (sigmoidVec fl) 0 v = .error e) :
    init fl v wIn bIn = ([.sigmoidApplied], .error e) := by
  simp [init, he]

/-- C5, counterexample to the claim as stated.  Constructing with a
float-dtype `layer_sizes` array (invalid: not of integer dtype) raises a
`TypeError`, but the constructor trace shows the input vector was passed
through the sigmoid before the error: the error is not raised before any
computation on the input. -/
theorem C5_counterexample :
    (init [0] (.arr (.f1 [1])) (.lst []) (.lst [])).2 =
      .error (.typeError "Size of the layers have to of type int.") ∧
    (init [0] (.arr (.f1 [1])) (.lst []) (.lst [])).1 = [.sigmoidApplied] :=
  ⟨rfl, rfl⟩

/-- C5, amended.  For every invalid `layer_sizes` argument — not an
ndarray, not one-dimensional, not of int dtype, or containing a
non-positive entry — a `TypeError` or `ValueError` is always raised,
both on direct assignment and at construction; in the constructor,
however, the error comes only after the input vector has been passed
through the sigmoid (the constructor applies the activation before
validating the layer sizes). -/
theorem C5_invalid_layer_sizes_always_error (cur : List ℝ) (counter : ℕ) (fl : List ℝ)
    (v : PyObj) (wIn bIn : PyList) (hinv : lsInvalid v = true) :
    (∃ e, setLayerSizes cur counter v = .error e ∧ isTVErr e = true) ∧
    (∃ e, (init fl v wIn bIn).2 = .error e ∧ isTVErr e = true ∧
      (init fl v wIn bIn).1 = [.sigmoidApplied]) := by
  have hset : ∀ (cur' : List ℝ) (counter' : ℕ),
      ∃ e, setLayerSizes cur' counter' v = .error e ∧ isTVErr e = true := by
    intro cur' counter'
    cases v with
    | nonArr =>
        exact ⟨.typeError "The layer sizes have to be a numpy array.", rfl, rfl⟩
    | arr a =>
        by_cases hnd : a.ndim = 1
        · by_cases hdt : a.dtype = DType.dint
          · cases a with
            | i1 l =>
                have h : ∃ x ∈ l, x ≤ 0 := by
                  simpa [lsInvalid, hnd, hdt] using hinv
                have hall : ¬ (l.all fun s => decide (0 < s)) = true := by
                    obtain ⟨x, hx, hle⟩ := h
                    simp only [List.all_eq_true]
                    intro hforall
                    have h2 := hforall x hx
                    simp only [decide_eq_true_eq] at h2
                    omega
                refine ⟨.valueError "The sizes of the layers have to be positive.", ?_, rfl⟩
                simp only [setLayerSizes]
                rw [if_neg (by simp [hnd]), if_neg (by simp [hdt]),
                  if_pos (by simpa [NpArr.ints1] using hall)]
            | f1 l => simp [NpArr.dtype] at hdt
            | i2 m => simp [NpArr.ndim, NpArr.shape] at hnd
            | f2 m => simp [NpArr.ndim, NpArr.shape] at hnd
            | obj s => simp [NpArr.dtype] at hdt
            | numOther nd isInt =>
                simp only [lsInvalid, Bool.or_eq_true, bne_iff_ne, ne_eq] at hinv
                rcases hinv with (h | h) | h
                · exact absurd hnd h
                · exact absurd hdt h
                · simp at h
          · refine ⟨.typeError "Size of the layers have to of type int.", ?_, rfl⟩
            simp only [setLayerSizes]
            rw [if_neg (by simp [hnd]), if_pos (by simp [hdt])]
        · refine ⟨.valueError "The sizes of the layers has to be a one-dimensional array.",
            ?_, rfl⟩
          simp only [setLayerSizes]
          rw [if_pos (by simp [hnd])]
  obtain ⟨e, he, htv⟩ := hset (sigmoidVec fl) 0
  refine ⟨hset cur counter, e, ?_, htv, ?_⟩
  · rw [init_error_of_setLayerSizes he]
  · rw [init_error_of_setLayerSizes he]

theorem weightEntries_ok (l : List PyObj) (h : l.all wTyped = true) :
    ∃ ws, weightEntries l = .ok ws := by
  induction l with
  | nil => exact ⟨[], rfl⟩
  | cons x rest ih =>
      simp only [List.all_cons, Bool.and_eq_true] at h
      obtain ⟨hx, hrest⟩ := h
      obtain ⟨ws, hws⟩ := ih hrest
      cases x with
      | nonArr => simp [wTyped] at hx
      | arr a =>
          simp only [wTyped, Bool.and_eq_true, Bool.or_eq_true, beq_iff_eq] at hx
          refine ⟨a :: ws, ?_⟩
          simp only [weightEntries]
          rw [if_neg (not_not_intro hx.1), if_neg (not_not_intro hx.2), hws]

theorem biasEntries_ok (l : List PyObj) (h : l.all bTyped = true) :
    ∃ bs, biasEntries l = .ok bs := by
  induction l with
  | nil => exact ⟨[], rfl⟩
  | cons x rest ih =>
      simp only [List.all_cons, Bool.and_eq_true] at h
      obtain ⟨hx, hrest⟩ := h
      obtain ⟨bs, hbs⟩ := ih hrest
      cases x with
      | nonArr => simp [bTyped] at hx
      | arr a =>
          simp only [bTyped, Bool.and_eq_true, Bool.or_eq_true, beq_iff_eq] at hx
          refine ⟨a :: bs, ?_⟩
          simp only [biasEntries]
          rw [if_neg (not_not_intro hx.1), if_neg (not_not_intro hx.2), hbs]

/-- C9.  The weights and biases setters check only container type,
dimensionality and numeric dtype — they take no `layer_sizes` at all, so
every well-typed list is accepted no matter its shapes.  In particular
the mismatched parameters held by `mismatchNet` (a 1-D weight of length
2 against `layer_sizes = [1, 1]`) pass the setters, and the mismatch is
only rejected later by `check_shapes`. -/
theorem C9_setters_never_check_shapes (wl bl : List PyObj)
    (hw : wl.all wTyped = true) (hb : bl.all bTyped = true) :
    (∃ ws, setWeights (.lst wl) = .ok ws) ∧
    (∃ bs, setBiases (.lst bl) = .ok bs) ∧
    setWeights (.lst [.arr (.f1 [0, 0])]) = .ok mismatchNet.weights ∧
    checkShapes mismatchNet =
      .error (.valueError
        "Shapes of the weight matrix does not coincide with the layer sizes.") :=
  ⟨weightEntries_ok wl hw, biasEntries_ok bl hb, rfl, rfl⟩

/-- C10.  The `layer_sizes` setter additionally requires the length of
the current activation vector to equal the layer-size entry at the
current layer index, and construction with an input vector whose length
differs from `layer_sizes[0]` raises a `ValueError` — a precondition the
spec does not state. -/
theorem C10_current_layer_length_check (cur : List ℝ) (counter : ℕ) (l : List ℤ) (s : ℤ)
    (fl : List ℝ) (wIn bIn : PyList) (s0 : ℤ)
    (hpos : ∀ x ∈ l, 0 < x)
    (hc : l[counter]? = some s) (hne : (cur.length : ℤ) ≠ s)
    (h0 : l[0]? = some s0) (hne0 : (fl.length : ℤ) ≠ s0) :
    setLayerSizes cur counter (.arr (.i1 l)) = .error (.valueError
      "The size of the current layer has to coincide with the corresponding value in the layer_sizes array.") ∧
    (init fl (.arr (.i1 l)) wIn bIn).2 = .error (.valueError
      "The size of the current layer has to coincide with the corresponding value in the layer_sizes array.") := by
  have hall : ∀ (l' : List ℤ), (∀ x ∈ l', 0 < x) → (l'.all fun s' => decide (0 < s')) = true := by
    intro l' hp
    simp only [List.all_eq_true, decide_eq_true_eq]
    exact hp
  have hsls : ∀ (cur' : List ℝ) (counter' : ℕ) (s' : ℤ), l[counter']? = some s' →
      (cur'.length : ℤ) ≠ s' →
      setLayerSizes cur' counter' (.arr (.i1 l)) = .error (.valueError
        "The size of the current layer has to coincide with the corresponding value in the layer_sizes array.") := by
    intro cur' counter' s' hc' hne'
    simp only [setLayerSizes]
    rw [if_neg (by simp [NpArr.ndim, NpArr.shape]), if_neg (by simp [NpArr.dtype])]
    rw [if_neg (by simpa [NpArr.ints1] using hall l hpos)]
    simp only [NpArr.ints1]
    rw [hc']
    dsimp only
    rw [if_pos hne']
  refine ⟨hsls cur counter s hc hne, ?_⟩
  have hlen : ((sigmoidVec fl).length : ℤ) ≠ s0 := by
    rw [sigmoidVec_length]
    exact hne0
  rw [init_error_of_setLayerSizes (hsls (sigmoidVec fl) 0 s0 h0 hlen)]

/-- The constructor establishes the reachability invariant assumed by
the `run` theorems: the counter is zero and the current layer is the
first layer. -/
theorem init_inv {fl : List ℝ} {v : PyObj} {wIn bIn : PyList} {events : List InitEvent}
    {net : Network} (h : init fl v wIn bIn = (events, .ok net)) :
    net.current_layer = net.first_layer ∧ net.layer_counter = 0 := by
  simp only [init] at h
  cases h1 : setLayerSizes (sigmoidVec fl) 0 v with
  | error e => rw [h1] at h; simp at h
  | ok ls =>
      rw [h1] at h
      cases h2 : setWeights wIn with
      | error e => rw [h2] at h; simp at h
      | ok ws =>
          rw [h2] at h
          cases h3 : setBiases bIn with
          | error e => rw [h3] at h; simp at h
          | ok bs =>
              rw [h3] at h
              simp only [Prod.mk.injEq, Except.ok.injEq] at h
              obtain ⟨-, hn⟩ := h
              subst hn
              exact ⟨rfl, rfl⟩

/-- `update` preserves the reachability invariant: either it leaves the
state unchanged (on an exception) or it makes the counter positive. -/
theorem update_inv {net : Network}
    (hinv : net.current_layer = net.first_layer ∨ net.layer_counter ≠ 0) :
    (update net).2.current_layer = (update net).2.first_layer ∨
    (update net).2.layer_counter ≠ 0 := by
  unfold update
  repeat' split
  all_goals simp_all

/-- The update loop preserves the reachability invariant. -/
theorem runUpdates_inv (k : ℕ) : ∀ net : Network,
    (net.current_layer = net.first_layer ∨ net.layer_counter ≠ 0) →
    ((runUpdates k net).2.current_layer = (runUpdates k net).2.first_layer ∨
     (runUpdates k net).2.layer_counter ≠ 0) := by
  induction k with
  | zero => intro net hinv; simpa [runUpdates] using hinv
  | succ k ih =>
      intro net hinv
      have hu := update_inv hinv
      cases hupd : update net with
      | mk r net1 =>
          rw [hupd] at hu
          cases r with
          | error e => simpa [runUpdates, hupd] using hu
          | ok u =>
              have hr := ih net1 hu
              cases hrr : runUpdates k net1 with
              | mk r2 net2 =>
                  rw [hrr] at hr
                  cases r2 with
                  | error e => simpa [runUpdates, hupd, hrr] using hr
                  | ok o => simpa [runUpdates, hupd, hrr] using hr

/-- `run` preserves the reachability invariant, whether it succeeds or
raises: together with `init_inv` and `update_inv` this shows every state
the class can reach satisfies the invariant assumed in the `run`
theorems. -/
theorem run_inv {net : Network}
    (hinv : net.current_layer = net.first_layer ∨ net.layer_counter ≠ 0) :
    (run net).2.current_layer = (run net).2.first_layer ∨
    (run net).2.layer_counter ≠ 0 := by
  unfold run
  cases hcs : checkShapes net with
  | error e => simpa using hinv
  | ok u =>
      simp only []
      set net1 := if net.layer_counter = 0 then net
        else { net with layer_counter := 0, current_layer := net.first_layer } with hn1
      have hinv1 : net1.current_layer = net1.first_layer ∨ net1.layer_counter ≠ 0 := by
        rw [hn1]
        by_cases h0 : net.layer_counter = 0
        · rw [if_pos h0]; exact hinv
        · rw [if_neg h0]; exact Or.inl rfl
      have hr := runUpdates_inv (net1.layer_sizes.length - 1) net1 hinv1
      cases hrr : runUpdates (net1.layer_sizes.length - 1) net1 with
      | mk r2 net2 =>
          rw [hrr] at hr
          cases r2 with
          | error e => simpa [hrr] using hr
          | ok o => simpa [hrr] using hr

theorem C1_witness :
    ∃ out, (run exNet).1 = .ok out ∧ out[0]? = some (sigmoidVec [0]) ∧
      ∀ (k : ℕ), k + 1 < exNet.layer_sizes.length →
        ∃ w b u d s, exNet.weights[k]? = some w ∧ exNet.biases[k]? = some b ∧
          out[k]? = some u ∧ npdot w u = .ok d ∧ npadd d b = .ok s ∧
          out[k + 1]? = some (sigmoidVec s) :=
  @C1_run_layer_recurrence exNet [0] rfl (by decide) (Or.inl rfl)

theorem C2_witness :
    ∃ out, (run exNet).1 = .ok out ∧ out.length = exNet.layer_sizes.length :=
  @C2_run_length exNet (by decide) (Or.inl rfl)

theorem C3_witness :
    checkShapes shortNet = .ok () ∧
    (run shortNet).1 = .error (.indexError "list index out of range") ∧
    (run shortNet).2.layer_counter = shortNet.weights.length :=
  @C3_short_lists_run_overrun shortNet (by decide) (by decide) (by decide) (Or.inl rfl)

theorem C5_witness :
    (∃ e, setLayerSizes [0] 0 PyObj.nonArr = .error e ∧ isTVErr e = true) ∧
    (∃ e, (init [0] PyObj.nonArr (.lst []) (.lst [])).2 = .error e ∧ isTVErr e = true ∧
      (init [0] PyObj.nonArr (.lst []) (.lst [])).1 = [.sigmoidApplied]) :=
  C5_invalid_layer_sizes_always_error [0] 0 [0] PyObj.nonArr (.lst []) (.lst []) rfl

theorem C6_witness :
    (checkShapes exNet = .ok () ↔ entriesMatch exNet = true) ∧
    (entriesMatch exNet = false → ∃ msg, checkShapes exNet = .error (.valueError msg)) :=
  @C6_checkShapes_iff exNet (by decide) (by decide) (by decide)

theorem C7_witness :
    ∃ out, (run exNet).1 = .ok out ∧ (run (run exNet).2).1 = .ok out :=
  @C7_run_idempotent exNet (by decide) (Or.inl rfl)

theorem C9_witness :
    (∃ ws, setWeights (.lst [.arr (.f2 [[0]])]) = .ok ws) ∧
    (∃ bs, setBiases (.lst [.arr (.f1 [0])]) = .ok bs) ∧
    setWeights (.lst [.arr (.f1 [0, 0])]) = .ok mismatchNet.weights ∧
    checkShapes mismatchNet =
      .error (.valueError
        "Shapes of the weight matrix does not coincide with the layer sizes.") :=
  C9_setters_never_check_shapes [.arr (.f2 [[0]])] [.arr (.f1 [0])] (by decide) (by decide)

theorem C10_witness :
    setLayerSizes [0, 0] 0 (.arr (.i1 [1, 1])) = .error (.valueError
      "The size of the current layer has to coincide with the corresponding value in the layer_sizes array.") ∧
    (init [0, 0] (.arr (.i1 [1, 1])) (.lst []) (.lst [])).2 = .error (.valueError
      "The size of the current layer has to coincide with the corresponding value in the layer_sizes array.") :=
  C10_current_layer_length_check [0, 0] 0 [1, 1] 1 [0, 0] (.lst []) (.lst []) 1
    (by decide) rfl (by decide) rfl (by decide)

end SimpleNN
